import Mathlib

/-
Verification of the val_unc library: a paired value/uncertainty container
whose arithmetic operators propagate uncertainties through pluggable
capability contracts, componentwise tuple lifting of those contracts
(arities 0 through 12), a zero-test capability, and a serde bridge with a
two-shape encoding (bare scalar vs (val, unc) pair).

Rust traits are embedded as explicit dictionaries (structures of functions),
trait impls as dictionary values, and the macro-generated tuple impls as
recursion over a list of component types.
-/

/-- The paired entity from src/val_unc.rs: a central value and an
uncertainty payload. -/
structure ValUnc (V U : Type) where
  val : V
  unc : U
deriving DecidableEq, Repr

/-- Dictionary for the UncAdd trait: unc_add(self, self_val, other, other_val). -/
structure UncAdd (V U : Type) where
  unc_add : U → V → U → V → U

/-- Dictionary for the UncSub trait. -/
structure UncSub (V U : Type) where
  unc_sub : U → V → U → V → U

/-- Dictionary for the UncMul trait. -/
structure UncMul (V U : Type) where
  unc_mul : U → V → U → V → U

/-- Dictionary for the UncDiv trait. -/
structure UncDiv (V U : Type) where
  unc_div : U → V → U → V → U

/-- Dictionary for the UncNeg trait: unc_neg(self, self_val), no other operand. -/
structure UncNeg (V U : Type) where
  unc_neg : U → V → U

/-- Dictionary for the UncZero trait from src/traits/num.rs: construct a
zero, test for zero, reset to zero in place (state passing in the model). -/
structure UncZero (U : Type) where
  zero : U
  is_zero : U → Bool
  set_zero : U → U

/-- impl Add for ValUnc: val via the scalar operator of V (the vadd
dictionary), unc via unc_add(self.unc, self.val, other.unc, other.val). -/
def ValUnc.add {V U : Type} (vadd : V → V → V) (d : UncAdd V U)
    (self other : ValUnc V U) : ValUnc V U :=
  ⟨vadd self.val other.val, d.unc_add self.unc self.val other.unc other.val⟩

/-- impl Sub for ValUnc. -/
def ValUnc.sub {V U : Type} (vsub : V → V → V) (d : UncSub V U)
    (self other : ValUnc V U) : ValUnc V U :=
  ⟨vsub self.val other.val, d.unc_sub self.unc self.val other.unc other.val⟩

/-- impl Mul for ValUnc. -/
def ValUnc.mul {V U : Type} (vmul : V → V → V) (d : UncMul V U)
    (self other : ValUnc V U) : ValUnc V U :=
  ⟨vmul self.val other.val, d.unc_mul self.unc self.val other.unc other.val⟩

/-- impl Div for ValUnc. -/
def ValUnc.div {V U : Type} (vdiv : V → V → V) (d : UncDiv V U)
    (self other : ValUnc V U) : ValUnc V U :=
  ⟨vdiv self.val other.val, d.unc_div self.unc self.val other.unc other.val⟩

/-- impl Neg for ValUnc: negates val, and calls unc_neg with the original
(pre-negation) scalar self.val. -/
def ValUnc.neg {V U : Type} (vneg : V → V) (d : UncNeg V U)
    (self : ValUnc V U) : ValUnc V U :=
  ⟨vneg self.val, d.unc_neg self.unc self.val⟩

/-- impl From of V for ValUnc where U implements Default: the bare scalar
conversion, with the Default dictionary of U passed explicitly. -/
def ValUnc.fromVal {V U : Type} (dflt : U) (val : V) : ValUnc V U :=
  ⟨val, dflt⟩

/-- The type of a Rust tuple whose component types are listed in order:
arity 0 is the unit type, arity n+1 is a head component paired with the
remaining tuple. -/
def Tup : List Type → Type
  | [] => Unit
  | t :: ts => t × Tup ts

/-- A list of trait dictionaries, one for each component type of a tuple:
the shallow form of the constraint that every element type of the tuple
implements the trait. -/
def Dicts (F : Type → Type) : List Type → Type
  | [] => Unit
  | t :: ts => F t × Dicts F ts

/-- Position access into a tuple: component i, of type ts.get i. -/
def Tup.get : (ts : List Type) → Tup ts → (i : Fin ts.length) → ts.get i
  | [], _, i => i.elim0
  | _ :: _, x, ⟨0, _⟩ => x.1
  | _ :: ts, x, ⟨n + 1, h⟩ => Tup.get ts x.2 ⟨n, Nat.lt_of_succ_lt_succ h⟩

/-- Position access into a dictionary list. -/
def Dicts.get {F : Type → Type} : (ts : List Type) → Dicts F ts →
    (i : Fin ts.length) → F (ts.get i)
  | [], _, i => i.elim0
  | _ :: _, ds, ⟨0, _⟩ => ds.1
  | _ :: ts, ds, ⟨n + 1, h⟩ => Dicts.get ts ds.2 ⟨n, Nat.lt_of_succ_lt_succ h⟩

/-- The tuple impl of UncAdd generated by the unc_tuples macro: component i
of self combines with component i of other, results reassembled in index
order; the arity 0 instance returns the empty tuple. -/
def UncAdd.tup (V : Type) : (ts : List Type) → Dicts (UncAdd V) ts →
    UncAdd V (Tup ts)
  | [], _ => ⟨fun _ _ _ _ => ()⟩
  | _ :: ts, ds =>
    ⟨fun a sv b ov =>
      (ds.1.unc_add a.1 sv b.1 ov, (UncAdd.tup V ts ds.2).unc_add a.2 sv b.2 ov)⟩

/-- The tuple impl of UncSub generated by the unc_tuples macro. -/
def UncSub.tup (V : Type) : (ts : List Type) → Dicts (UncSub V) ts →
    UncSub V (Tup ts)
  | [], _ => ⟨fun _ _ _ _ => ()⟩
  | _ :: ts, ds =>
    ⟨fun a sv b ov =>
      (ds.1.unc_sub a.1 sv b.1 ov, (UncSub.tup V ts ds.2).unc_sub a.2 sv b.2 ov)⟩

/-- The tuple impl of UncMul generated by the unc_tuples macro. -/
def UncMul.tup (V : Type) : (ts : List Type) → Dicts (UncMul V) ts →
    UncMul V (Tup ts)
  | [], _ => ⟨fun _ _ _ _ => ()⟩
  | _ :: ts, ds =>
    ⟨fun a sv b ov =>
      (ds.1.unc_mul a.1 sv b.1 ov, (UncMul.tup V ts ds.2).unc_mul a.2 sv b.2 ov)⟩

/-- The tuple impl of UncDiv generated by the unc_tuples macro. -/
def UncDiv.tup (V : Type) : (ts : List Type) → Dicts (UncDiv V) ts →
    UncDiv V (Tup ts)
  | [], _ => ⟨fun _ _ _ _ => ()⟩
  | _ :: ts, ds =>
    ⟨fun a sv b ov =>
      (ds.1.unc_div a.1 sv b.1 ov, (UncDiv.tup V ts ds.2).unc_div a.2 sv b.2 ov)⟩

/-- The tuple impl of UncNeg generated by the unc_tuples macro: unary, only
the self scalar is passed down to every component. -/
def UncNeg.tup (V : Type) : (ts : List Type) → Dicts (UncNeg V) ts →
    UncNeg V (Tup ts)
  | [], _ => ⟨fun _ _ => ()⟩
  | _ :: ts, ds =>
    ⟨fun a sv => (ds.1.unc_neg a.1 sv, (UncNeg.tup V ts ds.2).unc_neg a.2 sv)⟩

/-- The UncZero impls from src/traits/num.rs: the dedicated impl for the
unit type (zero is the unit value, is_zero is always true, set_zero is a
no-op) at arity 0, and the unc_num_tuples macro impls (componentwise zero,
conjunction of componentwise zero tests, componentwise reset) at arity n+1;
the recursion tails the macro's n-ary conjunction with a vacuous true, equal
to it by the unit law of the boolean and. -/
def UncZero.tup : (ts : List Type) → Dicts UncZero ts → UncZero (Tup ts)
  | [], _ => ⟨(), fun _ => true, fun u => u⟩
  | _ :: ts, ds =>
    ⟨(ds.1.zero, (UncZero.tup ts ds.2).zero),
     fun a => ds.1.is_zero a.1 && (UncZero.tup ts ds.2).is_zero a.2,
     fun a => (ds.1.set_zero a.1, (UncZero.tup ts ds.2).set_zero a.2)⟩

/-- The unc_zero_impl instances for the fixed-width integer primitives
(num_traits Zero: zero is 0, is_zero compares against 0, set_zero
overwrites with 0); machine integers are modelled as Int, faithful here
because none of these three operations can overflow. -/
def UncZero.int : UncZero Int :=
  ⟨0, fun x => decide (x = 0), fun _ => 0⟩

/-- The unc_zero_impl instances for f32/f64 (num_traits Zero on floats:
zero is 0.0, is_zero compares against 0.0, set_zero overwrites with 0.0);
float values are modelled as rationals, faithful here because these three
operations involve no rounding. -/
def UncZero.float : UncZero Rat :=
  ⟨0, fun x => decide (x = 0), fun _ => 0⟩

/-- The dedicated impl UncZero for the unit type, standalone (also the base
case of UncZero.tup). -/
def UncZero.unit : UncZero Unit :=
  ⟨(), fun _ => true, fun u => u⟩

/-- The two-shape serialized form from src/serde_conversion.rs: a bare
value, or a (val, unc) pair. -/
inductive ValUncTuple (V U : Type) where
  | NoUnc : V → ValUncTuple V U
  | Unc : V → U → ValUncTuple V U
deriving DecidableEq, Repr

/-- impl From of ValUnc for ValUncTuple (the encode direction): the bare
shape exactly when is_zero holds of the uncertainty payload. -/
def ValUncTuple.ofValUnc {V U : Type} (z : UncZero U) (v : ValUnc V U) :
    ValUncTuple V U :=
  if z.is_zero v.unc then ValUncTuple.NoUnc v.val else ValUncTuple.Unc v.val v.unc

/-- impl From of ValUncTuple for ValUnc (the decode direction): a bare
value decodes with unc set to the Default of U (dictionary dflt), a pair
decodes positionally. -/
def ValUnc.ofTuple {V U : Type} (dflt : U) : ValUncTuple V U → ValUnc V U
  | ValUncTuple.NoUnc val => ValUnc.fromVal dflt val
  | ValUncTuple.Unc val unc => ⟨val, unc⟩

/-- Recognizer for the compact (bare scalar) serialized shape. -/
def ValUncTuple.isBare {V U : Type} : ValUncTuple V U → Bool
  | ValUncTuple.NoUnc _ => true
  | ValUncTuple.Unc _ _ => false

/-- A self-describing encoded value as serde hands it to a visitor: a
signed integer (entry point visit_i64, reached from every signed width), an
unsigned integer (visit_u64, from every unsigned width), a float
(visit_f64, from every float width), or a sequence. Float values are
modelled as rationals. -/
inductive DeValue where
  | int : Int → DeValue
  | uint : Nat → DeValue
  | float : Rat → DeValue
  | seq : List DeValue → DeValue

/-- Decode errors surfaced by the bridge: a length mismatch carrying the
position at which the sequence ended or overran, or an element of the wrong
type. -/
inductive DeError where
  | invalidLength : Nat → DeError
  | invalidType : DeError
deriving DecidableEq, Repr

/-- Deserializing one sequence element as an f64 scalar (serde upconverts
any primitive numeric representation; a nested sequence is a type error). -/
def decodeF64 : DeValue → Option Rat
  | DeValue.int v => some ((v : Int) : Rat)
  | DeValue.uint v => some ((v : Nat) : Rat)
  | DeValue.float v => some v
  | DeValue.seq _ => none

/-- seq.next_element of the SeqAccess: Ok None when the sequence is
exhausted, an error when the next element has the wrong type, otherwise the
decoded element and the rest of the sequence. -/
def nextElementF64 : List DeValue → Except DeError (Option Rat × List DeValue)
  | [] => Except.ok (none, [])
  | x :: rest =>
    match decodeF64 x with
    | some v => Except.ok (some v, rest)
    | none => Except.error DeError.invalidType

/-- ValUncVisitor::visit_f64 from src/serde.rs: v.into(), giving val v and
the Default uncertainty (0.0 for the scalar f64 uncertainty). -/
def ValUncVisitor.visit_f64 (v : Rat) : ValUnc Rat Rat :=
  ValUnc.fromVal 0 v

/-- ValUncVisitor::visit_i64: delegates to visit_f64 after an int-to-float
cast (exact in this model; the actual cast is exact on the values the
bridge contract covers). -/
def ValUncVisitor.visit_i64 (v : Int) : ValUnc Rat Rat :=
  ValUncVisitor.visit_f64 ((v : Int) : Rat)

/-- ValUncVisitor::visit_u64: delegates to visit_f64 after a cast. -/
def ValUncVisitor.visit_u64 (v : Nat) : ValUnc Rat Rat :=
  ValUncVisitor.visit_f64 ((v : Nat) : Rat)

/-- ValUncVisitor::visit_seq from src/serde.rs: the first missing element
is reported as invalid_length 0, the second as invalid_length 1; on success
the unconsumed remainder of the sequence is handed back to the enclosing
deserializer. -/
def ValUncVisitor.visit_seq (l : List DeValue) :
    Except DeError (ValUnc Rat Rat × List DeValue) :=
  match nextElementF64 l with
  | Except.error e => Except.error e
  | Except.ok (none, _) => Except.error (DeError.invalidLength 0)
  | Except.ok (some val, l1) =>
    match nextElementF64 l1 with
    | Except.error e => Except.error e
    | Except.ok (none, _) => Except.error (DeError.invalidLength 1)
    | Except.ok (some unc, l2) => Except.ok (⟨val, unc⟩, l2)

/-- Modelled from the spec: the enclosing generic deserializer (the serde
format implementation, e.g. serde_json, which is outside this crate)
dispatches a bare number to the matching visitor method and a sequence to
visit_seq, and, per the contract that wrong-arity input is a decode failure
with positional context and never a silent truncation, reports elements the
visitor left unconsumed as a length mismatch at position 2. -/
def deserializeValUnc : DeValue → Except DeError (ValUnc Rat Rat)
  | DeValue.int v => Except.ok (ValUncVisitor.visit_i64 v)
  | DeValue.uint v => Except.ok (ValUncVisitor.visit_u64 v)
  | DeValue.float v => Except.ok (ValUncVisitor.visit_f64 v)
  | DeValue.seq l =>
    match ValUncVisitor.visit_seq l with
    | Except.error e => Except.error e
    | Except.ok (r, rest) =>
      if rest.isEmpty then Except.ok r else Except.error (DeError.invalidLength 2)

/-- Claim C1: each binary operator on ValUnc computes val by the scalar
operator of V applied to the two vals and computes unc by the matching
capability applied as self.unc combined with (self.val, other.unc,
other.val); Neg negates val and calls the unary capability with only the
self scalar; in particular (a+b).val equals a.val + b.val. -/
theorem valUnc_ops_follow_scalar_and_capability :
    (∀ (V U : Type) (vadd : V → V → V) (d : UncAdd V U) (a b : ValUnc V U),
        (ValUnc.add vadd d a b).val = vadd a.val b.val ∧
        (ValUnc.add vadd d a b).unc = d.unc_add a.unc a.val b.unc b.val) ∧
    (∀ (V U : Type) (vsub : V → V → V) (d : UncSub V U) (a b : ValUnc V U),
        (ValUnc.sub vsub d a b).val = vsub a.val b.val ∧
        (ValUnc.sub vsub d a b).unc = d.unc_sub a.unc a.val b.unc b.val) ∧
    (∀ (V U : Type) (vmul : V → V → V) (d : UncMul V U) (a b : ValUnc V U),
        (ValUnc.mul vmul d a b).val = vmul a.val b.val ∧
        (ValUnc.mul vmul d a b).unc = d.unc_mul a.unc a.val b.unc b.val) ∧
    (∀ (V U : Type) (vdiv : V → V → V) (d : UncDiv V U) (a b : ValUnc V U),
        (ValUnc.div vdiv d a b).val = vdiv a.val b.val ∧
        (ValUnc.div vdiv d a b).unc = d.unc_div a.unc a.val b.unc b.val) ∧
    (∀ (V U : Type) (vneg : V → V) (d : UncNeg V U) (a : ValUnc V U),
        (ValUnc.neg vneg d a).val = vneg a.val ∧
        (ValUnc.neg vneg d a).unc = d.unc_neg a.unc a.val) ∧
    (∀ (V : Type) [Add V] (U : Type) (d : UncAdd V U) (a b : ValUnc V U),
        (ValUnc.add (fun x y => x + y) d a b).val = a.val + b.val) := by
  refine ⟨?_, ?_, ?_, ?_, ?_, ?_⟩ <;> intros <;>
    first
      | exact ⟨rfl, rfl⟩
      | rfl

/-- Claim C10: negation invokes the unary capability with the operand's
original scalar value, not the negated result; the closed conjunct
separates the two readings with a capability that returns the scalar
context it was handed. -/
theorem neg_capability_receives_original_val :
    (∀ (V U : Type) (vneg : V → V) (d : UncNeg V U) (a : ValUnc V U),
        (ValUnc.neg vneg d a).unc = d.unc_neg a.unc a.val) ∧
    (ValUnc.neg (fun x : Int => -x) (UncNeg.mk fun _ sv => sv)
        (ValUnc.mk 3 (0 : Int))).unc = 3 :=
  ⟨fun _ _ _ _ _ => rfl, rfl⟩

/-- Claim C9: the zero-arity tuple satisfies all five propagation
capabilities for every scalar type, each combine returning the empty tuple
itself. -/
theorem unit_tuple_satisfies_all_capabilities :
    ∀ (V : Type) (sv ov : V) (a b : Tup []),
      (UncAdd.tup V [] ()).unc_add a sv b ov = a ∧
      (UncSub.tup V [] ()).unc_sub a sv b ov = a ∧
      (UncMul.tup V [] ()).unc_mul a sv b ov = a ∧
      (UncDiv.tup V [] ()).unc_div a sv b ov = a ∧
      (UncNeg.tup V [] ()).unc_neg a sv = a :=
  fun _ _ _ _ _ => ⟨rfl, rfl, rfl, rfl, rfl⟩

/-- Claim C2: encoding produces the bare shape exactly when is_zero holds
of the uncertainty payload, and otherwise the (val, unc) pair. -/
theorem encode_bare_iff_unc_is_zero {V U : Type} (z : UncZero U) (v : ValUnc V U) :
    (ValUncTuple.ofValUnc z v).isBare = z.is_zero v.unc ∧
    (z.is_zero v.unc = true → ValUncTuple.ofValUnc z v = ValUncTuple.NoUnc v.val) ∧
    (z.is_zero v.unc = false → ValUncTuple.ofValUnc z v = ValUncTuple.Unc v.val v.unc) := by
  cases h : z.is_zero v.unc <;>
    simp [ValUncTuple.ofValUnc, ValUncTuple.isBare, h]

theorem encode_bare_iff_unc_is_zero_witness :
    ValUncTuple.ofValUnc UncZero.int (ValUnc.mk 3 0) = ValUncTuple.NoUnc 3 ∧
    ValUncTuple.ofValUnc UncZero.int (ValUnc.mk 3 2) = ValUncTuple.Unc 3 2 :=
  ⟨(encode_bare_iff_unc_is_zero UncZero.int ⟨3, 0⟩).2.1 (by decide),
   (encode_bare_iff_unc_is_zero UncZero.int ⟨3, 2⟩).2.2 (by decide)⟩

/-- Claim C4: encoding then decoding an entity with zero uncertainty yields
the original with unc set to the default; with nonzero uncertainty it
yields an entity structurally equal to the original. -/
theorem serde_roundtrip {V U : Type} (z : UncZero U) (dflt : U) (v : ValUnc V U) :
    (z.is_zero v.unc = true →
        ValUnc.ofTuple dflt (ValUncTuple.ofValUnc z v) = ValUnc.mk v.val dflt) ∧
    (z.is_zero v.unc = false →
        ValUnc.ofTuple dflt (ValUncTuple.ofValUnc z v) = v) := by
  cases h : z.is_zero v.unc <;>
    simp [ValUncTuple.ofValUnc, ValUnc.ofTuple, ValUnc.fromVal, h]

theorem serde_roundtrip_witness :
    ValUnc.ofTuple 0 (ValUncTuple.ofValUnc UncZero.int (ValUnc.mk 4 0)) =
      (ValUnc.mk 4 0 : ValUnc Int Int) ∧
    ValUnc.ofTuple 0 (ValUncTuple.ofValUnc UncZero.int (ValUnc.mk 4 9)) =
      (ValUnc.mk 4 9 : ValUnc Int Int) :=
  ⟨(serde_roundtrip UncZero.int 0 ⟨4, 0⟩).1 (by decide),
   (serde_roundtrip UncZero.int 0 ⟨4, 9⟩).2 (by decide)⟩

/-- Claim C5: decoding a bare encoded numeric of any standard width or
signedness succeeds, upconverting to the scalar type and setting unc to the
default; in particular the bare integer 5 decodes to val 5.0 and unc 0.0. -/
theorem decode_bare_numeric_upconverts :
    (∀ v : Int, deserializeValUnc (DeValue.int v) = Except.ok (ValUnc.mk (v : Rat) 0)) ∧
    (∀ v : Nat, deserializeValUnc (DeValue.uint v) = Except.ok (ValUnc.mk (v : Rat) 0)) ∧
    (∀ v : Rat, deserializeValUnc (DeValue.float v) = Except.ok (ValUnc.mk v 0)) ∧
    deserializeValUnc (DeValue.int 5) = Except.ok (ValUnc.mk 5 0) :=
  ⟨fun _ => rfl, fun _ => rfl, fun _ => rfl, by
    norm_num [deserializeValUnc, ValUncVisitor.visit_i64, ValUncVisitor.visit_f64,
      ValUnc.fromVal]⟩

/-- Componentwise behaviour of the tuple UncAdd impl at every position. -/
theorem uncAdd_tup_get (V : Type) :
    ∀ (ts : List Type) (ds : Dicts (UncAdd V) ts) (a : Tup ts) (sv : V)
      (b : Tup ts) (ov : V) (i : Fin ts.length),
      Tup.get ts ((UncAdd.tup V ts ds).unc_add a sv b ov) i
        = (Dicts.get ts ds i).unc_add (Tup.get ts a i) sv (Tup.get ts b i) ov
  | [], _, _, _, _, _, i => i.elim0
  | _ :: _, _, _, _, _, _, ⟨0, _⟩ => rfl
  | _ :: ts, ds, a, sv, b, ov, ⟨n + 1, h⟩ =>
    uncAdd_tup_get V ts ds.2 a.2 sv b.2 ov ⟨n, Nat.lt_of_succ_lt_succ h⟩

/-- Componentwise behaviour of the tuple UncSub impl at every position. -/
theorem uncSub_tup_get (V : Type) :
    ∀ (ts : List Type) (ds : Dicts (UncSub V) ts) (a : Tup ts) (sv : V)
      (b : Tup ts) (ov : V) (i : Fin ts.length),
      Tup.get ts ((UncSub.tup V ts ds).unc_sub a sv b ov) i
        = (Dicts.get ts ds i).unc_sub (Tup.get ts a i) sv (Tup.get ts b i) ov
  | [], _, _, _, _, _, i => i.elim0
  | _ :: _, _, _, _, _, _, ⟨0, _⟩ => rfl
  | _ :: ts, ds, a, sv, b, ov, ⟨n + 1, h⟩ =>
    uncSub_tup_get V ts ds.2 a.2 sv b.2 ov ⟨n, Nat.lt_of_succ_lt_succ h⟩

/-- Componentwise behaviour of the tuple UncMul impl at every position. -/
theorem uncMul_tup_get (V : Type) :
    ∀ (ts : List Type) (ds : Dicts (UncMul V) ts) (a : Tup ts) (sv : V)
      (b : Tup ts) (ov : V) (i : Fin ts.length),
      Tup.get ts ((UncMul.tup V ts ds).unc_mul a sv b ov) i
        = (Dicts.get ts ds i).unc_mul (Tup.get ts a i) sv (Tup.get ts b i) ov
  | [], _, _, _, _, _, i => i.elim0
  | _ :: _, _, _, _, _, _, ⟨0, _⟩ => rfl
  | _ :: ts, ds, a, sv, b, ov, ⟨n + 1, h⟩ =>
    uncMul_tup_get V ts ds.2 a.2 sv b.2 ov ⟨n, Nat.lt_of_succ_lt_succ h⟩

/-- Componentwise behaviour of the tuple UncDiv impl at every position. -/
theorem uncDiv_tup_get (V : Type) :
    ∀ (ts : List Type) (ds : Dicts (UncDiv V) ts) (a : Tup ts) (sv : V)
      (b : Tup ts) (ov : V) (i : Fin ts.length),
      Tup.get ts ((UncDiv.tup V ts ds).unc_div a sv b ov) i
        = (Dicts.get ts ds i).unc_div (Tup.get ts a i) sv (Tup.get ts b i) ov
  | [], _, _, _, _, _, i => i.elim0
  | _ :: _, _, _, _, _, _, ⟨0, _⟩ => rfl
  | _ :: ts, ds, a, sv, b, ov, ⟨n + 1, h⟩ =>
    uncDiv_tup_get V ts ds.2 a.2 sv b.2 ov ⟨n, Nat.lt_of_succ_lt_succ h⟩

/-- Componentwise behaviour of the tuple UncNeg impl at every position. -/
theorem uncNeg_tup_get (V : Type) :
    ∀ (ts : List Type) (ds : Dicts (UncNeg V) ts) (a : Tup ts) (sv : V)
      (i : Fin ts.length),
      Tup.get ts ((UncNeg.tup V ts ds).unc_neg a sv) i
        = (Dicts.get ts ds i).unc_neg (Tup.get ts a i) sv
  | [], _, _, _, i => i.elim0
  | _ :: _, _, _, _, ⟨0, _⟩ => rfl
  | _ :: ts, ds, a, sv, ⟨n + 1, h⟩ =>
    uncNeg_tup_get V ts ds.2 a.2 sv ⟨n, Nat.lt_of_succ_lt_succ h⟩

/-- Claim C3: for tuple uncertainty of every supported arity (0 through
12), each lifted capability combines position i of the left operand only
with position i of the right operand, independently for each i,
reassembling the results in index order; in particular position i of
(a+b).unc is position i of a.unc combined with position i of b.unc, the
operand scalars passed as context, with no cross-component interaction,
and likewise for all five capabilities. -/
theorem tuple_capabilities_componentwise (ts : List Type) (_har : ts.length ≤ 12)
    (V : Type) :
    (∀ (vadd : V → V → V) (ds : Dicts (UncAdd V) ts) (a b : ValUnc V (Tup ts))
        (i : Fin ts.length),
        Tup.get ts (ValUnc.add vadd (UncAdd.tup V ts ds) a b).unc i
          = (Dicts.get ts ds i).unc_add (Tup.get ts a.unc i) a.val
              (Tup.get ts b.unc i) b.val) ∧
    (∀ (ds : Dicts (UncAdd V) ts) (a : Tup ts) (sv : V) (b : Tup ts) (ov : V)
        (i : Fin ts.length),
        Tup.get ts ((UncAdd.tup V ts ds).unc_add a sv b ov) i
          = (Dicts.get ts ds i).unc_add (Tup.get ts a i) sv (Tup.get ts b i) ov) ∧
    (∀ (ds : Dicts (UncSub V) ts) (a : Tup ts) (sv : V) (b : Tup ts) (ov : V)
        (i : Fin ts.length),
        Tup.get ts ((UncSub.tup V ts ds).unc_sub a sv b ov) i
          = (Dicts.get ts ds i).unc_sub (Tup.get ts a i) sv (Tup.get ts b i) ov) ∧
    (∀ (ds : Dicts (UncMul V) ts) (a : Tup ts) (sv : V) (b : Tup ts) (ov : V)
        (i : Fin ts.length),
        Tup.get ts ((UncMul.tup V ts ds).unc_mul a sv b ov) i
          = (Dicts.get ts ds i).unc_mul (Tup.get ts a i) sv (Tup.get ts b i) ov) ∧
    (∀ (ds : Dicts (UncDiv V) ts) (a : Tup ts) (sv : V) (b : Tup ts) (ov : V)
        (i : Fin ts.length),
        Tup.get ts ((UncDiv.tup V ts ds).unc_div a sv b ov) i
          = (Dicts.get ts ds i).unc_div (Tup.get ts a i) sv (Tup.get ts b i) ov) ∧
    (∀ (ds : Dicts (UncNeg V) ts) (a : Tup ts) (sv : V) (i : Fin ts.length),
        Tup.get ts ((UncNeg.tup V ts ds).unc_neg a sv) i
          = (Dicts.get ts ds i).unc_neg (Tup.get ts a i) sv) :=
  ⟨fun _ ds a b i => uncAdd_tup_get V ts ds a.unc a.val b.unc b.val i,
   fun ds a sv b ov i => uncAdd_tup_get V ts ds a sv b ov i,
   fun ds a sv b ov i => uncSub_tup_get V ts ds a sv b ov i,
   fun ds a sv b ov i => uncMul_tup_get V ts ds a sv b ov i,
   fun ds a sv b ov i => uncDiv_tup_get V ts ds a sv b ov i,
   fun ds a sv i => uncNeg_tup_get V ts ds a sv i⟩

theorem tuple_capabilities_componentwise_witness :
    Tup.get [Int] ((UncAdd.tup Int [Int] (UncAdd.mk (fun u _ o _ => u + o), ())).unc_add
      ((3 : Int), ()) 5 ((4 : Int), ()) 7) ⟨0, Nat.one_pos⟩ = (7 : Int) :=
  ((tuple_capabilities_componentwise [Int] (by decide) Int).2.1
    (UncAdd.mk (fun u _ o _ => u + o), ()) ((3 : Int), ()) 5 ((4 : Int), ()) 7
    ⟨0, Nat.one_pos⟩).trans rfl

/-- Claim C6: decoding a sequence whose arity is not 2 fails with a length
mismatch carrying positional context: position 0 or 1 where a too-short
sequence ended (raised by visit_seq itself), position 2 where a too-long
sequence overran; nothing is silently truncated or defaulted. Elements are
assumed numeric so that arity errors are isolated from type errors. -/
theorem decode_wrong_arity_fails (l : List DeValue)
    (hnum : ∀ x ∈ l, (decodeF64 x).isSome = true) (hlen : l.length ≠ 2) :
    deserializeValUnc (DeValue.seq l)
      = Except.error (DeError.invalidLength (min l.length 2)) := by
  rcases l with _ | ⟨x, _ | ⟨y, _ | ⟨z, rest⟩⟩⟩
  · rfl
  · obtain ⟨v, hv⟩ := Option.isSome_iff_exists.mp (hnum x (by simp))
    simp [deserializeValUnc, ValUncVisitor.visit_seq, nextElementF64, hv]
  · exact absurd rfl hlen
  · obtain ⟨vx, hx⟩ := Option.isSome_iff_exists.mp (hnum x (by simp))
    obtain ⟨vy, hy⟩ := Option.isSome_iff_exists.mp (hnum y (by simp))
    have hmin : min (x :: y :: z :: rest).length 2 = 2 := by
      simp [Nat.min_def]
    rw [hmin]
    simp [deserializeValUnc, ValUncVisitor.visit_seq, nextElementF64, hx, hy]

theorem decode_wrong_arity_fails_witness :
    deserializeValUnc (DeValue.seq [DeValue.int 1, DeValue.int 2, DeValue.int 3])
      = Except.error (DeError.invalidLength 2) :=
  decode_wrong_arity_fails [DeValue.int 1, DeValue.int 2, DeValue.int 3]
    (by decide) (by decide)

/-- Position i of the tuple zero is the zero of dictionary i. -/
theorem uncZero_tup_zero_get :
    ∀ (ts : List Type) (ds : Dicts UncZero ts) (i : Fin ts.length),
      Tup.get ts (UncZero.tup ts ds).zero i = (Dicts.get ts ds i).zero
  | [], _, i => i.elim0
  | _ :: _, _, ⟨0, _⟩ => rfl
  | _ :: ts, ds, ⟨n + 1, h⟩ =>
    uncZero_tup_zero_get ts ds.2 ⟨n, Nat.lt_of_succ_lt_succ h⟩

/-- Position i of a reset tuple is the reset of position i. -/
theorem uncZero_tup_set_get :
    ∀ (ts : List Type) (ds : Dicts UncZero ts) (a : Tup ts) (i : Fin ts.length),
      Tup.get ts ((UncZero.tup ts ds).set_zero a) i
        = (Dicts.get ts ds i).set_zero (Tup.get ts a i)
  | [], _, _, i => i.elim0
  | _ :: _, _, _, ⟨0, _⟩ => rfl
  | _ :: ts, ds, a, ⟨n + 1, h⟩ =>
    uncZero_tup_set_get ts ds.2 a.2 ⟨n, Nat.lt_of_succ_lt_succ h⟩

/-- The tuple zero test holds exactly when every component zero test holds. -/
theorem uncZero_tup_is_zero_iff :
    ∀ (ts : List Type) (ds : Dicts UncZero ts) (a : Tup ts),
      (UncZero.tup ts ds).is_zero a = true ↔
        ∀ i : Fin ts.length, (Dicts.get ts ds i).is_zero (Tup.get ts a i) = true
  | [], _, _ => by
    constructor
    · intro _ i
      exact i.elim0
    · intro _
      rfl
  | t :: ts, ds, a => by
    have ih := uncZero_tup_is_zero_iff ts ds.2 a.2
    have h1 : (UncZero.tup (t :: ts) ds).is_zero a
        = (ds.1.is_zero a.1 && (UncZero.tup ts ds.2).is_zero a.2) := rfl
    rw [h1, Bool.and_eq_true]
    simp only [List.length_cons]
    rw [Fin.forall_fin_succ]
    exact and_congr Iff.rfl ih

/-- Reset is idempotent for a tuple whose components reset idempotently. -/
theorem uncZero_tup_set_idem :
    ∀ (ts : List Type) (ds : Dicts UncZero ts),
      (∀ i : Fin ts.length, ∀ x,
          (Dicts.get ts ds i).set_zero ((Dicts.get ts ds i).set_zero x)
            = (Dicts.get ts ds i).set_zero x) →
      ∀ a : Tup ts,
        (UncZero.tup ts ds).set_zero ((UncZero.tup ts ds).set_zero a)
          = (UncZero.tup ts ds).set_zero a
  | [], _, _, _ => rfl
  | t :: ts, ds, h, a => by
    have h0 := h ⟨0, Nat.succ_pos ts.length⟩ a.1
    have ih := uncZero_tup_set_idem ts ds.2
      (fun i x => h ⟨i.val + 1, Nat.succ_lt_succ i.isLt⟩ x) a.2
    show ((ds.1.set_zero (ds.1.set_zero a.1),
        (UncZero.tup ts ds.2).set_zero ((UncZero.tup ts ds.2).set_zero a.2)) : Tup (t :: ts))
      = (ds.1.set_zero a.1, (UncZero.tup ts ds.2).set_zero a.2)
    exact congrArg₂ Prod.mk h0 ih

/-- Claim C7: IsZero of Zero holds for every zero-testable type: the
primitive integer impls, the float impls, the unit type, and every tuple of
zero-testable components (the supported arities, 0 through 12); and a tuple
reports zero exactly when every one of its components reports zero. -/
theorem is_zero_of_zero_and_tuple_componentwise (ts : List Type)
    (_har : ts.length ≤ 12) (ds : Dicts UncZero ts)
    (hcomp : ∀ i : Fin ts.length,
        (Dicts.get ts ds i).is_zero (Dicts.get ts ds i).zero = true) :
    UncZero.int.is_zero UncZero.int.zero = true ∧
    UncZero.float.is_zero UncZero.float.zero = true ∧
    UncZero.unit.is_zero UncZero.unit.zero = true ∧
    (UncZero.tup ts ds).is_zero (UncZero.tup ts ds).zero = true ∧
    (∀ a : Tup ts, (UncZero.tup ts ds).is_zero a = true ↔
        ∀ i : Fin ts.length, (Dicts.get ts ds i).is_zero (Tup.get ts a i) = true) := by
  refine ⟨by decide, by decide, rfl, ?_, fun a => uncZero_tup_is_zero_iff ts ds a⟩
  exact (uncZero_tup_is_zero_iff ts ds _).mpr
    (fun i => by rw [uncZero_tup_zero_get]; exact hcomp i)

theorem is_zero_of_zero_and_tuple_componentwise_witness :
    (UncZero.tup [Int, Rat] (UncZero.int, UncZero.float, ())).is_zero
      (UncZero.tup [Int, Rat] (UncZero.int, UncZero.float, ())).zero = true :=
  (is_zero_of_zero_and_tuple_componentwise [Int, Rat] (by decide)
    (UncZero.int, UncZero.float, ()) (by decide)).2.2.2.1

/-- Claim C8: set_zero followed by is_zero is true, and set_zero is
idempotent, for the primitive integer impls, the float impls, the unit
impl, and every tuple whose components satisfy those same laws. -/
theorem set_zero_then_is_zero_and_idempotent (ts : List Type)
    (ds : Dicts UncZero ts)
    (hsz : ∀ i : Fin ts.length, ∀ x,
        (Dicts.get ts ds i).is_zero ((Dicts.get ts ds i).set_zero x) = true)
    (hid : ∀ i : Fin ts.length, ∀ x,
        (Dicts.get ts ds i).set_zero ((Dicts.get ts ds i).set_zero x)
          = (Dicts.get ts ds i).set_zero x) :
    (∀ x : Int, UncZero.int.is_zero (UncZero.int.set_zero x) = true ∧
        UncZero.int.set_zero (UncZero.int.set_zero x) = UncZero.int.set_zero x) ∧
    (∀ x : Rat, UncZero.float.is_zero (UncZero.float.set_zero x) = true ∧
        UncZero.float.set_zero (UncZero.float.set_zero x) = UncZero.float.set_zero x) ∧
    (∀ u : Unit, UncZero.unit.is_zero (UncZero.unit.set_zero u) = true ∧
        UncZero.unit.set_zero (UncZero.unit.set_zero u) = UncZero.unit.set_zero u) ∧
    (∀ a : Tup ts,
        (UncZero.tup ts ds).is_zero ((UncZero.tup ts ds).set_zero a) = true ∧
        (UncZero.tup ts ds).set_zero ((UncZero.tup ts ds).set_zero a)
          = (UncZero.tup ts ds).set_zero a) := by
  refine ⟨fun x => ⟨rfl, rfl⟩, fun x => ⟨rfl, rfl⟩, fun u => ⟨rfl, rfl⟩,
    fun a => ⟨?_, uncZero_tup_set_idem ts ds hid a⟩⟩
  exact (uncZero_tup_is_zero_iff ts ds _).mpr
    (fun i => by rw [uncZero_tup_set_get]; exact hsz i _)

theorem set_zero_then_is_zero_and_idempotent_witness :
    (UncZero.tup [Int, Rat] (UncZero.int, UncZero.float, ())).is_zero
      ((UncZero.tup [Int, Rat] (UncZero.int, UncZero.float, ())).set_zero
        (5, 7, ())) = true ∧
    (UncZero.tup [Int, Rat] (UncZero.int, UncZero.float, ())).set_zero
      ((UncZero.tup [Int, Rat] (UncZero.int, UncZero.float, ())).set_zero
        (5, 7, ()))
      = (UncZero.tup [Int, Rat] (UncZero.int, UncZero.float, ())).set_zero
        (5, 7, ()) :=
  (set_zero_then_is_zero_and_idempotent [Int, Rat]
    (UncZero.int, UncZero.float, ())
    (by intro i; fin_cases i <;> intro x <;> rfl)
    (by intro i; fin_cases i <;> intro x <;> rfl)).2.2.2 (5, 7, ())
